import Mathlib

/-!
Verification development for the EasyAnyLink overlay-network repository.

The definitions below are a shallow embedding of the Go source:

* `server/ippool.go` — the overlay address pool (`NewIPPool`, `Allocate`,
  `Release`, `AllocateSpecific`, `nextIP`, `copyIP`, `isReserved`).
* `agent/agent.go` — the agent runtime (`NewAgent`, the `readTUN` and
  `relayData` loop bodies, the statistics counters).
* `agent/route_darwin.go` (and the identical-order linux variant) — the
  `RouteManager` route tracking and `Cleanup`.
* `common/config/config.go` — `AgentConfig` and its `Validate` method.
* `common/crypto/tls.go` — `LoadClientTLSConfig` (one-way TLS client side).

IPv4 addresses appear in the Go code as 4-byte `net.IP` slices (this is what
`net.ParseCIDR` produces for IPv4 CIDRs); they are embedded as a structure of
four `Nat` fields, one per byte, with byte arithmetic written out exactly as
the source performs it (`nextIP`'s per-byte increment with carry, per-byte
`AND` in masking, per-byte `OR` in the broadcast computation).  Go maps are
embedded as association lists with overwrite-on-insert, and the Go methods
that mutate their receiver are embedded as functions returning the result
value together with the new state.
-/

/-- One IPv4 address as a 4-byte vector, exactly the `net.IP` slices that
`net.ParseCIDR` yields for IPv4 CIDRs.  Each field holds one byte. -/
structure IPv4 where
  b0 : Nat
  b1 : Nat
  b2 : Nat
  b3 : Nat
deriving DecidableEq, Repr

/-- All four bytes are in byte range, the domain guaranteed by Go's `byte`
type for `net.IP` entries. -/
def IPv4.bytesLT (ip : IPv4) : Prop :=
  ip.b0 < 256 ∧ ip.b1 < 256 ∧ ip.b2 < 256 ∧ ip.b3 < 256

instance (ip : IPv4) : Decidable ip.bytesLT := by
  unfold IPv4.bytesLT; infer_instance

/-- Numeric value of an IPv4 address (big-endian byte order). -/
def IPv4.val (ip : IPv4) : Nat :=
  ip.b0 * 16777216 + ip.b1 * 65536 + ip.b2 * 256 + ip.b3

/-- Embeds `nextIP` from `server/ippool.go`: per-byte increment from the last
byte towards the first, stopping at the first byte that did not wrap to 0. -/
def nextIP (ip : IPv4) : IPv4 :=
  let c3 := (ip.b3 + 1) % 256
  if c3 > 0 then ⟨ip.b0, ip.b1, ip.b2, c3⟩ else
  let c2 := (ip.b2 + 1) % 256
  if c2 > 0 then ⟨ip.b0, ip.b1, c2, 0⟩ else
  let c1 := (ip.b1 + 1) % 256
  if c1 > 0 then ⟨ip.b0, c1, 0, 0⟩ else
  ⟨(ip.b0 + 1) % 256, 0, 0, 0⟩

/-- Embeds `copyIP` from `server/ippool.go`; the copy of a byte slice is the
identity on the value it denotes. -/
def copyIP (ip : IPv4) : IPv4 := ip

/-- One byte of the CIDR mask built by `net.CIDRMask(ones, 32)`: byte `i`
keeps `min (ones - 8*i) 8` leading one bits. -/
def maskByte (ones i : Nat) : Nat :=
  256 - 2 ^ (8 - min (ones - 8 * i) 8)

/-- The 4-byte mask `net.CIDRMask(ones, 32)`. -/
def maskOfOnes (ones : Nat) : IPv4 :=
  ⟨maskByte ones 0, maskByte ones 1, maskByte ones 2, maskByte ones 3⟩

/-- Embeds `net.IP.Mask`: per-byte bitwise AND with the mask. -/
def maskIP (ip m : IPv4) : IPv4 :=
  ⟨ip.b0 &&& m.b0, ip.b1 &&& m.b1, ip.b2 &&& m.b2, ip.b3 &&& m.b3⟩

/-- A parsed IPv4 CIDR, the `*net.IPNet` that `net.ParseCIDR` returns: the
masked network address plus the prefix length (`Mask.Size()` recovers
`(ones, 32)` from a `CIDRMask`). -/
structure IPNet where
  ip : IPv4
  ones : Nat
deriving DecidableEq, Repr

/-- Embeds `net.IPNet.Contains` for 4-byte addresses: mask the candidate and
compare it with the (already masked) network address. -/
def containsIP (n : IPNet) (ip : IPv4) : Prop :=
  maskIP ip (maskOfOnes n.ones) = n.ip

instance (n : IPNet) (ip : IPv4) : Decidable (containsIP n ip) := by
  unfold containsIP; infer_instance

/-- Embeds the broadcast computation inside `isReserved`
(`server/ippool.go` lines 207-214): start from a copy of `ipNet.IP` and OR
the complemented mask byte into byte `i` only when `i*8 < bits-ones`
(`bits = 32`).  The complement of mask byte `m` (a byte) is `255 - m`. -/
def broadcastCalc (n : IPNet) : IPv4 :=
  let m := maskOfOnes n.ones
  ⟨if 0 * 8 < 32 - n.ones then n.ip.b0 ||| (255 - m.b0) else n.ip.b0,
   if 1 * 8 < 32 - n.ones then n.ip.b1 ||| (255 - m.b1) else n.ip.b1,
   if 2 * 8 < 32 - n.ones then n.ip.b2 ||| (255 - m.b2) else n.ip.b2,
   if 3 * 8 < 32 - n.ones then n.ip.b3 ||| (255 - m.b3) else n.ip.b3⟩

/-- Embeds `isReserved` from `server/ippool.go`: reserved are the network
address, the gateway (`nextIP` of the network), and — for IPv4 with
`ones ≠ 0` — whatever `broadcastCalc` computes as "broadcast". -/
def isReserved (ip : IPv4) (n : IPNet) : Bool :=
  let networkIP := maskIP n.ip (maskOfOnes n.ones)
  if ip = networkIP then true
  else if ip = nextIP networkIP then true
  else if n.ones = 0 then false
  else decide (ip = broadcastCalc n)

/-- Embeds the address-enumeration loop of `NewIPPool` (lines 32-45 of
`server/ippool.go`): repeatedly step `nextIP`, stop as soon as the address
leaves the CIDR, skip reserved addresses, append the rest.  The Go loop has
no fuel; `poolFuel` below is large enough that the fuel never runs out on a
terminating Go run. -/
def genAvail : Nat → IPNet → IPv4 → List IPv4
  | 0, _, _ => []
  | fuel + 1, n, ip =>
    let ip1 := nextIP ip
    if containsIP n ip1 then
      if isReserved ip1 n then genAvail fuel n ip1
      else copyIP ip1 :: genAvail fuel n ip1
    else []

/-- Fuel bound for `genAvail`: one step per IPv4 address. -/
def poolFuel : Nat := 4294967296

/-- The pool state of `server/ippool.go`: the CIDR, the agent → IP map
(association list with unique keys, modelling the Go map), and the free
list. -/
structure IPPool where
  cidr : IPNet
  allocated : List (String × IPv4)
  available : List IPv4
deriving DecidableEq, Repr

/-- Lookup in the allocation map (`p.allocated[agentID]`). -/
def lookupA (k : String) : List (String × IPv4) → Option IPv4
  | [] => none
  | (a, ip) :: t => if a = k then some ip else lookupA k t

/-- Go map assignment `p.allocated[agentID] = ip`: overwrite any existing
entry for the key. -/
def mapInsert (k : String) (ip : IPv4) (l : List (String × IPv4)) :
    List (String × IPv4) :=
  (k, ip) :: l.filter (fun q => ¬ q.1 = k)

/-- Go map `delete(p.allocated, agentID)`. -/
def mapErase (k : String) (l : List (String × IPv4)) : List (String × IPv4) :=
  l.filter (fun q => ¬ q.1 = k)

/-- Embeds the removal loop in `AllocateSpecific` (lines 142-147): splice out
the first element equal to `ip`, leave the rest untouched. -/
def removeFirst (ip : IPv4) : List IPv4 → List IPv4
  | [] => []
  | x :: t => if x = ip then t else x :: removeFirst ip t

/-- Embeds `NewIPPool` from `server/ippool.go`, starting from the parsed
CIDR (`base` address and prefix length as `net.ParseCIDR` would deliver
them; `ParseCIDR` masks the address, and line 32 masks it again). -/
def NewIPPool (base : IPv4) (ones : Nat) : Except String IPPool :=
  let network := maskIP base (maskOfOnes ones)
  let n : IPNet := ⟨network, ones⟩
  let start := maskIP n.ip (maskOfOnes n.ones)
  let avail := genAvail poolFuel n start
  if avail = [] then .error "no available IPs in CIDR range"
  else .ok ⟨n, [], avail⟩

/-- Embeds `IPPool.Allocate`: return the existing allocation unchanged, else
pop the head of the free list. -/
def IPPool.Allocate (p : IPPool) (agentID : String) :
    Except String IPv4 × IPPool :=
  match lookupA agentID p.allocated with
  | some ip => (.ok ip, p)
  | none =>
    match p.available with
    | [] => (.error "IP pool exhausted", p)
    | ip :: rest =>
      (.ok ip, { p with available := rest,
                        allocated := mapInsert agentID ip p.allocated })

/-- Embeds `IPPool.Release`: error when the agent has no allocation, else
delete the entry and append the IP to the tail of the free list. -/
def IPPool.Release (p : IPPool) (agentID : String) :
    Except String Unit × IPPool :=
  match lookupA agentID p.allocated with
  | none => (.error "agent does not have allocated IP", p)
  | some ip =>
    (.ok (), { p with allocated := mapErase agentID p.allocated,
                      available := p.available ++ [ip] })

/-- Embeds `IPPool.AllocateSpecific`: range check, reserved check, scan of
allocated values, then removal from the free list and map assignment. -/
def IPPool.AllocateSpecific (p : IPPool) (agentID : String) (ip : IPv4) :
    Except String Unit × IPPool :=
  if ¬ containsIP p.cidr ip then (.error "IP not in CIDR range", p)
  else if isReserved ip p.cidr then (.error "IP is reserved", p)
  else if p.allocated.any (fun q => q.2 = ip) then
    (.error "IP already allocated", p)
  else
    (.ok (), { p with available := removeFirst ip p.available,
                      allocated := mapInsert agentID ip p.allocated })

/-- Embeds `IPPool.AvailableCount`. -/
def IPPool.AvailableCount (p : IPPool) : Nat := p.available.length

/-- Pool invariant carried by every reachable pool state: the free list has
no duplicates, no free IP is also allocated, the map keys are unique, and no
two live allocations share an IP. -/
def IPPool.Inv (p : IPPool) : Prop :=
  p.available.Nodup ∧
  (∀ ip ∈ p.available, ∀ q ∈ p.allocated, q.2 ≠ ip) ∧
  (p.allocated.map Prod.fst).Nodup ∧
  (p.allocated.map Prod.snd).Nodup

instance (p : IPPool) : Decidable p.Inv := by
  unfold IPPool.Inv; infer_instance

/-- Agent statistics (`agent/agent.go` `AgentStats`); byte/packet counters
are Go `uint64`, error/drop counters `uint32`, so updates wrap at the
corresponding power of two. -/
structure AgentStats where
  bytesSent : Nat
  bytesReceived : Nat
  packetsSent : Nat
  packetsReceived : Nat
  errors : Nat
  drops : Nat
deriving DecidableEq, Repr

/-- A `proto.DataPacket` as the agent populates it: session id, source agent
id and the raw payload bytes. -/
structure DataPacket where
  sessionId : String
  sourceAgentId : String
  payload : List Nat
deriving DecidableEq, Repr

/-- Embeds one successful iteration of the `readTUN` loop body
(`agent/agent.go` lines 341-359) applied to the datagram just read: the
first component is the updated statistics (`BytesSent += n`,
`PacketsSent++`), the second is the list of `DataPacket`s handed to a relay
stream send during the iteration.  The Go body contains no send at all —
the comment at lines 352-353 defers sending to `relayData` — so that list
is empty. -/
def readTUNStep (st : AgentStats) (datagram : List Nat) :
    AgentStats × List DataPacket :=
  ({ st with bytesSent := (st.bytesSent + datagram.length) % 2 ^ 64,
             packetsSent := (st.packetsSent + 1) % 2 ^ 64 }, [])

/-- Embeds the packets `relayData` (`agent/agent.go` lines 374-381) sends
when the stream opens: exactly one identifying packet with session id and
source agent id and no payload. -/
def relayDataInitialSends (sessionID agentID : String) : List DataPacket :=
  [⟨sessionID, agentID, []⟩]

/-- Embeds one iteration of the `relayData` receive loop (lines 390-408):
write the payload to the TUN device; on failure increment `Drops`, on
success update the receive counters.  No packet is sent in either case. -/
def relayRecvStep (st : AgentStats) (p : DataPacket) (writeOk : Bool) :
    AgentStats × List DataPacket :=
  if writeOk then
    ({ st with bytesReceived := (st.bytesReceived + p.payload.length) % 2 ^ 64,
               packetsReceived := (st.packetsReceived + 1) % 2 ^ 64 }, [])
  else
    ({ st with drops := (st.drops + 1) % 2 ^ 32 }, [])

/-- Route tracking state of `agent/route_darwin.go` (the linux variant in
the repository tracks routes identically): the destinations of the installed
routes, in installation order. -/
structure RouteManager where
  routes : List String
deriving DecidableEq, Repr

/-- Embeds `NewRouteManager`. -/
def NewRouteManager : RouteManager := ⟨[]⟩

/-- Embeds `RouteManager.AddRoute`: run the platform `route add` command
(outside the model) and append the destination to the tracked list.  The
gateway/interface arguments shape the shell command only. -/
def RouteManager.AddRoute (rm : RouteManager)
    (destination _gateway _iface : String) : RouteManager :=
  ⟨rm.routes ++ [destination]⟩

/-- Embeds `RouteManager.Cleanup` of `agent/route_darwin.go` lines 97-114
(the linux `Cleanup` iterates in the same order): issue one delete command
per tracked route by iterating the list front to back, then reset the list.
The first component is the sequence of destinations passed to delete
commands, in execution order. -/
def RouteManager.Cleanup (rm : RouteManager) : List String × RouteManager :=
  (rm.routes, ⟨[]⟩)

/-- TLS-related fields of the JSON configs (`common/config/config.go`
`TLSConfig`). -/
structure TLSConfig where
  certFile : String
  keyFile : String
  caFile : String
  minVersion : String
deriving DecidableEq, Repr

/-- Agent configuration (`common/config/config.go` `AgentConfig`), limited
to the fields the verified operations read. -/
structure AgentConfig where
  mode : String
  server : String
  userKey : String
  agentID : String
  bandwidth : Nat
  tls : TLSConfig
deriving DecidableEq, Repr

/-- Embeds `AgentConfig.Validate` (`common/config/config.go` lines 181-192):
mode, server address and `tls.ca_file` must all be non-empty. -/
def AgentConfig.Validate (c : AgentConfig) : Except String Unit :=
  if c.mode = "" then .error "mode is required"
  else if c.server = "" then .error "server address is required"
  else if c.tls.caFile = "" then
    .error "CA certificate is required for TLS verification"
  else .ok ()

/-- The agent identity state established by `NewAgent`. -/
structure Agent where
  config : AgentConfig
  agentID : String
deriving DecidableEq, Repr

/-- Embeds `NewAgent` (`agent/agent.go` lines 49-67).  `uuid.New().String()`
is an external randomness source; the fresh value the process would draw is
passed in as `freshUUID`. -/
def NewAgent (cfg : AgentConfig) (freshUUID : String) : Agent :=
  let agentID := cfg.agentID
  let agentID := if agentID = "" then freshUUID else agentID
  ⟨cfg, agentID⟩

/-- Root-certificate source used by the client TLS path.  The only source
`LoadClientTLSConfig` ever installs is the system pool. -/
inductive RootSource where
  | systemPool
deriving DecidableEq, Repr

/-- The client-side `tls.Config` fields relevant here. -/
structure ClientTLSConfig where
  serverName : String
  insecureSkipVerify : Bool
  rootCAs : Option RootSource
deriving DecidableEq, Repr

/-- Embeds `LoadClientTLSConfig` (`common/crypto/tls.go`): one-way TLS; when
verification is on, the system root pool is installed; no CA file is read —
the function does not even receive one. -/
def LoadClientTLSConfig (serverName : String) (insecureSkipVerify : Bool) :
    ClientTLSConfig :=
  ⟨serverName, insecureSkipVerify,
   if insecureSkipVerify then none else some RootSource.systemPool⟩

/-! ## Concrete fixtures used by witnesses and counterexamples -/

/-- The overlay network `10.200.0.0/16` of the default configuration. -/
def net16 : IPNet := ⟨⟨10, 200, 0, 0⟩, 16⟩

/-- The IPv4 broadcast address of `10.200.0.0/16`. -/
def bcast16 : IPv4 := ⟨10, 200, 255, 255⟩

/-- A pool on `10.200.0.0/16` whose free list still holds the broadcast
address — exactly the state `NewIPPool` produces, shortened to the single
relevant free-list entry. -/
def pool16x : IPPool := ⟨net16, [], [bcast16]⟩

/-- A small pool with one live allocation, for witnesses. -/
def poolW : IPPool := ⟨net16, [("agent-a", ⟨10, 200, 0, 2⟩)], []⟩

/-- A route manager that installed `10.0.0.0/8` first and
`172.16.0.0/12` second. -/
def rmEx : RouteManager :=
  RouteManager.AddRoute
    (RouteManager.AddRoute NewRouteManager "10.0.0.0/8" "" "tun0")
    "172.16.0.0/12" "" "tun0"

/-! ## Claims about the pool operations -/

/-- Claim C3: `Allocate` is idempotent per agent — when the agent already
holds a live allocation, the call succeeds with exactly the stored IP and
leaves the pool untouched, whatever the free list holds. -/
theorem Allocate_idempotent (p : IPPool) (A : String) (ip : IPv4)
    (h : lookupA A p.allocated = some ip) :
    IPPool.Allocate p A = (.ok ip, p) := by
  unfold IPPool.Allocate
  rw [h]

/-- Witness for C3: on a concrete pool with an empty free list, re-allocating
for `agent-a` returns the stored `10.200.0.2`. -/
theorem Allocate_idempotent_witness :
    lookupA "agent-a" poolW.allocated = some ⟨10, 200, 0, 2⟩ ∧
    IPPool.Allocate poolW "agent-a" = (.ok ⟨10, 200, 0, 2⟩, poolW) :=
  ⟨by decide, Allocate_idempotent poolW "agent-a" ⟨10, 200, 0, 2⟩ (by decide)⟩

/-- Allocation from a pool whose free list is non-empty succeeds for any
agent that holds no allocation yet. -/
theorem Allocate_of_nonempty (q : IPPool) (B : String)
    (hB : lookupA B q.allocated = none) (hne : q.available ≠ []) :
    ∃ ip1, (IPPool.Allocate q B).1 = .ok ip1 := by
  unfold IPPool.Allocate
  rw [hB]
  cases hav : q.available with
  | nil => exact absurd hav hne
  | cons x t => exact ⟨x, rfl⟩

/-- Claim C6: `Release` errors exactly when the agent has no live
allocation; on success it removes the agent's entry, appends the freed IP to
the tail of the free list, and a subsequent `Allocate` for an agent without
an allocation succeeds. -/
theorem Release_spec (p : IPPool) (A : String) :
    (lookupA A p.allocated = none ↔
      (IPPool.Release p A).1 = .error "agent does not have allocated IP") ∧
    (∀ ip, lookupA A p.allocated = some ip →
      (IPPool.Release p A).1 = .ok () ∧
      (IPPool.Release p A).2.allocated = mapErase A p.allocated ∧
      (IPPool.Release p A).2.available = p.available ++ [ip] ∧
      ∀ B, lookupA B (IPPool.Release p A).2.allocated = none →
        ∃ ip1, (IPPool.Allocate (IPPool.Release p A).2 B).1 = .ok ip1) := by
  constructor
  · constructor
    · intro h
      simp [IPPool.Release, h]
    · intro he
      cases h : lookupA A p.allocated with
      | none => rfl
      | some ip0 =>
        have hok : (IPPool.Release p A).1 = .ok () := by
          simp [IPPool.Release, h]
        rw [hok] at he
        simp at he
  · intro ip hip
    have hrel : IPPool.Release p A =
        (.ok (), { p with allocated := mapErase A p.allocated,
                          available := p.available ++ [ip] }) := by
      simp [IPPool.Release, hip]
    refine ⟨by rw [hrel], by rw [hrel], by rw [hrel], ?_⟩
    intro B hB
    refine Allocate_of_nonempty _ B hB ?_
    rw [hrel]
    simp

/-- Witness for C6: releasing `agent-a` from the concrete pool succeeds,
empties the map, appends `10.200.0.2` to the free list, and a following
`Allocate` for `agent-b` succeeds. -/
theorem Release_spec_witness :
    (IPPool.Release poolW "agent-a").1 = .ok () ∧
    (IPPool.Release poolW "agent-a").2.available = [⟨10, 200, 0, 2⟩] ∧
    ∃ ip1, (IPPool.Allocate (IPPool.Release poolW "agent-a").2 "agent-b").1
      = .ok ip1 := by
  have h := (Release_spec poolW "agent-a").2 ⟨10, 200, 0, 2⟩ (by decide)
  exact ⟨h.1, h.2.2.1, h.2.2.2 "agent-b" (by decide)⟩

/-- Claim C5 (code bug): `isReserved` does not flag the broadcast address of
`10.200.0.0/16`, so `AllocateSpecific` hands out the broadcast instead of
failing with the reserved-IP error.  The broadcast loop ORs host bits only
into bytes `i` with `i*8 < bits-ones`, which for a `/16` touches no host
byte, leaving the computed "broadcast" equal to the network address. -/
theorem AllocateSpecific_accepts_broadcast :
    isReserved bcast16 net16 = false ∧
    IPPool.AllocateSpecific pool16x "agent-a" bcast16 =
      (.ok (), ⟨net16, [("agent-a", bcast16)], []⟩) :=
  ⟨rfl, rfl⟩

/-! ## Claims about the agent runtime -/

/-- Claim C2 (code bug): an iteration of the `readTUN` loop updates the
sent-bytes and sent-packets counters for the datagram it read, but sends no
`DataPacket` whatsoever on the relay stream; the only packet `relayData`
ever sends is the initial identification packet, whose payload is empty, so
no datagram read from the virtual interface is ever wrapped and sent. -/
theorem readTUN_sends_no_datapacket (st : AgentStats) (datagram : List Nat)
    (sid aid : String) :
    (readTUNStep st datagram).2 = [] ∧
    (readTUNStep st datagram).1.bytesSent
      = (st.bytesSent + datagram.length) % 2 ^ 64 ∧
    (readTUNStep st datagram).1.packetsSent = (st.packetsSent + 1) % 2 ^ 64 ∧
    (∀ p ∈ relayDataInitialSends sid aid, p.payload = []) ∧
    (∀ p w, ((relayRecvStep st p w).2 = [])) := by
  refine ⟨rfl, rfl, rfl, ?_, ?_⟩
  · intro p hp
    simp only [relayDataInitialSends, List.mem_singleton] at hp
    rw [hp]
  · intro p w
    unfold relayRecvStep
    cases w <;> simp

/-- Claim C8 (amended): `Cleanup` issues a delete command for every tracked
route in installation order — first installed deleted first, not reverse —
and afterwards the tracked route list is empty. -/
theorem Cleanup_install_order (rm : RouteManager) :
    (RouteManager.Cleanup rm).1 = rm.routes ∧
    (RouteManager.Cleanup rm).2.routes = [] :=
  ⟨rfl, rfl⟩

/-- Counterexample for C8 as stated: with `10.0.0.0/8` installed first and
`172.16.0.0/12` second, `Cleanup` deletes `10.0.0.0/8` first — the deletion
sequence is not the reverse of the installation order. -/
theorem Cleanup_not_reverse_order :
    rmEx.routes = ["10.0.0.0/8", "172.16.0.0/12"] ∧
    (RouteManager.Cleanup rmEx).1 ≠ rmEx.routes.reverse := by
  refine ⟨rfl, ?_⟩
  intro h
  simp [RouteManager.Cleanup, rmEx, RouteManager.AddRoute,
    NewRouteManager] at h

/-- Claim C9: `NewAgent` takes the configured id verbatim when it is
non-empty; with an empty configured id it adopts the freshly generated UUID,
so two starts that draw different UUIDs present different agent
identities. -/
theorem NewAgent_id_selection (cfg : AgentConfig) (u1 u2 : String) :
    (cfg.agentID ≠ "" → (NewAgent cfg u1).agentID = cfg.agentID) ∧
    (cfg.agentID = "" → (NewAgent cfg u1).agentID = u1) ∧
    (cfg.agentID = "" → u1 ≠ u2 →
      (NewAgent cfg u1).agentID ≠ (NewAgent cfg u2).agentID) := by
  unfold NewAgent
  refine ⟨?_, ?_, ?_⟩
  · intro h
    simp [h]
  · intro h
    simp [h]
  · intro h hne
    simp [h]
    exact hne

/-- Witness for C9: a configured id is kept; an empty one falls back to the
fresh UUID, and distinct UUIDs give distinct identities. -/
theorem NewAgent_id_selection_witness :
    (NewAgent ⟨"client", "vpn.example.com:8228", "k", "gw-1", 0,
        ⟨"", "", "", ""⟩⟩ "uuid-1").agentID = "gw-1" ∧
    (NewAgent ⟨"client", "vpn.example.com:8228", "k", "", 0,
        ⟨"", "", "", ""⟩⟩ "uuid-1").agentID = "uuid-1" ∧
    (NewAgent ⟨"client", "vpn.example.com:8228", "k", "", 0,
        ⟨"", "", "", ""⟩⟩ "uuid-1").agentID ≠
      (NewAgent ⟨"client", "vpn.example.com:8228", "k", "", 0,
        ⟨"", "", "", ""⟩⟩ "uuid-2").agentID :=
  ⟨(NewAgent_id_selection _ "uuid-1" "uuid-2").1 (by decide),
   (NewAgent_id_selection _ "uuid-1" "uuid-2").2.1 rfl,
   (NewAgent_id_selection _ "uuid-1" "uuid-2").2.2 rfl (by decide)⟩

/-- Claim C10: `AgentConfig.Validate` rejects every configuration whose
`tls.ca_file` is empty — validation demands a CA file — while the one-way
TLS client path (`LoadClientTLSConfig`) takes no CA file at all and installs
the system root pool (or nothing when verification is skipped). -/
theorem Validate_requires_caFile (c : AgentConfig) (host : String) :
    (c.tls.caFile = "" → ∃ e, AgentConfig.Validate c = .error e) ∧
    (AgentConfig.Validate c = .ok () → c.tls.caFile ≠ "") ∧
    (LoadClientTLSConfig host false).rootCAs = some RootSource.systemPool ∧
    (LoadClientTLSConfig host true).rootCAs = none := by
  refine ⟨?_, ?_, rfl, rfl⟩
  · intro h
    unfold AgentConfig.Validate
    split_ifs with h1 h2
    · exact ⟨_, rfl⟩
    · exact ⟨_, rfl⟩
    · exact ⟨_, rfl⟩
  · intro hok h
    unfold AgentConfig.Validate at hok
    split_ifs at hok

/-- Witness for C10: a configuration with mode and server set but an empty
CA file is rejected. -/
theorem Validate_requires_caFile_witness :
    ∃ e, AgentConfig.Validate
      ⟨"client", "vpn.example.com:8228", "k", "", 0, ⟨"", "", "", ""⟩⟩
      = .error e :=
  (Validate_requires_caFile
    ⟨"client", "vpn.example.com:8228", "k", "", 0, ⟨"", "", "", ""⟩⟩
    "vpn.example.com").1 rfl


/-! ## Byte-level facts used in the CIDR boundary proofs -/

set_option maxRecDepth 8192 in
/-- AND with the all-ones mask byte is the identity on bytes. -/
theorem land255 : ∀ x, x < 256 → x &&& 255 = x := by decide

set_option maxRecDepth 8192 in
/-- AND with the `/31` mask byte `254` clears the low bit of a byte. -/
theorem land254_pack : ∀ x, x < 256 → x &&& 254 = x - x % 2 := by decide

/-- Unfolding equation of the enumeration loop for positive fuel. -/
theorem genAvail_succ (fuel : Nat) (n : IPNet) (ip : IPv4) :
    genAvail (fuel + 1) n ip =
      if containsIP n (nextIP ip) then
        if isReserved (nextIP ip) n then genAvail fuel n (nextIP ip)
        else copyIP (nextIP ip) :: genAvail fuel n (nextIP ip)
      else [] := rfl

/-- `nextIP` on an explicit byte vector. -/
theorem nextIP_mk (b0 b1 b2 b3 : Nat) :
    nextIP ⟨b0, b1, b2, b3⟩ =
      if (b3 + 1) % 256 > 0 then ⟨b0, b1, b2, (b3 + 1) % 256⟩
      else if (b2 + 1) % 256 > 0 then ⟨b0, b1, (b2 + 1) % 256, 0⟩
      else if (b1 + 1) % 256 > 0 then ⟨b0, (b1 + 1) % 256, 0, 0⟩
      else ⟨(b0 + 1) % 256, 0, 0, 0⟩ := rfl

/-- `maskIP` on explicit byte vectors. -/
theorem maskIP_mk (a0 a1 a2 a3 m0 m1 m2 m3 : Nat) :
    maskIP ⟨a0, a1, a2, a3⟩ ⟨m0, m1, m2, m3⟩ =
      ⟨a0 &&& m0, a1 &&& m1, a2 &&& m2, a3 &&& m3⟩ := rfl

/-- `bytesLT` on an explicit byte vector. -/
theorem bytesLT_mk (a0 a1 a2 a3 : Nat) :
    (⟨a0, a1, a2, a3⟩ : IPv4).bytesLT ↔
      (a0 < 256 ∧ a1 < 256 ∧ a2 < 256 ∧ a3 < 256) := Iff.rfl

/-- `nextIP` keeps all bytes in range. -/
theorem nextIP_bytesLT (ip : IPv4) (h : ip.bytesLT) : (nextIP ip).bytesLT := by
  obtain ⟨b0, b1, b2, b3⟩ := ip
  rw [bytesLT_mk] at h
  obtain ⟨h0, h1, h2, h3⟩ := h
  rw [nextIP_mk]
  split_ifs <;> rw [bytesLT_mk] <;> refine ⟨?_, ?_, ?_, ?_⟩ <;> omega

/-- `nextIP` never returns its argument when the bytes are in range. -/
theorem nextIP_ne (ip : IPv4) (h : ip.bytesLT) : nextIP ip ≠ ip := by
  obtain ⟨b0, b1, b2, b3⟩ := ip
  rw [bytesLT_mk] at h
  obtain ⟨h0, h1, h2, h3⟩ := h
  rw [nextIP_mk]
  split_ifs with hc3 hc2 hc1 <;>
    · intro heq
      simp only [IPv4.mk.injEq] at heq
      omega

/-- Incrementing an address whose last byte is below 255 only bumps the last
byte. -/
theorem nextIP_no_carry (x0 x1 x2 y : Nat) (hy : y < 255) :
    nextIP ⟨x0, x1, x2, y⟩ = ⟨x0, x1, x2, y + 1⟩ := by
  rw [nextIP_mk]
  rw [Nat.mod_eq_of_lt (by omega : y + 1 < 256)]
  rw [if_pos (by omega)]

/-- Incrementing an address whose last byte is 255 leaves a zero last byte,
whatever carries happen in the upper bytes. -/
theorem nextIP_b3_of_255 (x0 x1 x2 : Nat) :
    (nextIP ⟨x0, x1, x2, 255⟩).b3 = 0 := by
  rw [nextIP_mk]
  norm_num
  split_ifs <;> rfl

/-- Masking with the `/32` mask is the identity on byte-range addresses. -/
theorem mask32_id (x : IPv4) (h : x.bytesLT) : maskIP x (maskOfOnes 32) = x := by
  obtain ⟨b0, b1, b2, b3⟩ := x
  rw [bytesLT_mk] at h
  obtain ⟨h0, h1, h2, h3⟩ := h
  rw [show maskOfOnes 32 = ⟨255, 255, 255, 255⟩ from by decide, maskIP_mk,
    land255 b0 h0, land255 b1 h1, land255 b2 h2, land255 b3 h3]

/-- On a `/32` the enumeration loop stops at its very first step: the
successor address is already outside the block. -/
theorem gen32_empty (f : Nat) (ip : IPv4) (h : ip.bytesLT) :
    genAvail (f + 1) ⟨ip, 32⟩ ip = [] := by
  rw [genAvail_succ, if_neg]
  intro hc
  have hc1 : maskIP (nextIP ip) (maskOfOnes 32) = ip := hc
  rw [mask32_id _ (nextIP_bytesLT ip h)] at hc1
  exact nextIP_ne ip h hc1

/-- On a `/31` the loop visits only the gateway (reserved) and then leaves
the block, so nothing is ever appended. -/
theorem gen31_empty (f x0 x1 x2 e : Nat)
    (h0 : x0 < 256) (h1 : x1 < 256) (h2 : x2 < 256)
    (he : e < 256) (hev : e % 2 = 0) :
    genAvail (f + 2) ⟨⟨x0, x1, x2, e⟩, 31⟩ ⟨x0, x1, x2, e⟩ = [] := by
  have hm : maskOfOnes 31 = ⟨255, 255, 255, 254⟩ := by decide
  have hmaske : e &&& 254 = e := by rw [land254_pack e he]; omega
  have hnet : maskIP ⟨x0, x1, x2, e⟩ (maskOfOnes 31) = ⟨x0, x1, x2, e⟩ := by
    rw [hm, maskIP_mk, land255 x0 h0, land255 x1 h1, land255 x2 h2, hmaske]
  have hnext1 : nextIP ⟨x0, x1, x2, e⟩ = ⟨x0, x1, x2, e + 1⟩ :=
    nextIP_no_carry x0 x1 x2 e (by omega)
  have h1e : (e + 1) &&& 254 = e := by rw [land254_pack (e + 1) (by omega)]; omega
  have hc1 : containsIP ⟨⟨x0, x1, x2, e⟩, 31⟩ ⟨x0, x1, x2, e + 1⟩ := by
    show maskIP ⟨x0, x1, x2, e + 1⟩ (maskOfOnes 31) = ⟨x0, x1, x2, e⟩
    rw [hm, maskIP_mk, land255 x0 h0, land255 x1 h1, land255 x2 h2, h1e]
  have hr1 : isReserved ⟨x0, x1, x2, e + 1⟩ ⟨⟨x0, x1, x2, e⟩, 31⟩ = true := by
    unfold isReserved
    simp only [hnet, hnext1]
    simp
  rw [genAvail_succ, hnext1, if_pos hc1, hr1, if_pos rfl]
  rw [genAvail_succ]
  rcases Nat.lt_or_ge e 253 with hlt | hge
  · rw [nextIP_no_carry x0 x1 x2 (e + 1) (by omega)]
    rw [if_neg]
    intro hc
    have hc1 : maskIP ⟨x0, x1, x2, e + 1 + 1⟩ (maskOfOnes 31)
        = ⟨x0, x1, x2, e⟩ := hc
    rw [hm, maskIP_mk, land255 x0 h0, land255 x1 h1, land255 x2 h2,
      land254_pack (e + 1 + 1) (by omega)] at hc1
    simp only [IPv4.mk.injEq] at hc1
    omega
  · have he4 : e = 254 := by omega
    subst he4
    rw [if_neg]
    intro hc
    have hc1 : maskIP (nextIP ⟨x0, x1, x2, 254 + 1⟩) (maskOfOnes 31)
        = ⟨x0, x1, x2, 254⟩ := hc
    have hb3 := congrArg IPv4.b3 hc1
    rw [hm] at hb3
    simp only [maskIP] at hb3
    rw [show (254 : Nat) + 1 = 255 from rfl, nextIP_b3_of_255] at hb3
    simp at hb3

/-- Claim C7: pool construction fails with the no-available-IPs error on
every IPv4 `/32` and every IPv4 `/31`: after the network and gateway are
skipped, no allocatable address remains before the loop leaves the block. -/
theorem NewIPPool_fails_slash31_slash32 (b : IPv4) (h : b.bytesLT) :
    NewIPPool b 32 = .error "no available IPs in CIDR range" ∧
    NewIPPool b 31 = .error "no available IPs in CIDR range" := by
  obtain ⟨b0, b1, b2, b3⟩ := b
  rw [bytesLT_mk] at h
  obtain ⟨h0, h1, h2, h3⟩ := h
  constructor
  · have hmask : maskIP ⟨b0, b1, b2, b3⟩ (maskOfOnes 32) = ⟨b0, b1, b2, b3⟩ :=
      mask32_id _ ⟨h0, h1, h2, h3⟩
    have hgen : genAvail poolFuel ⟨⟨b0, b1, b2, b3⟩, 32⟩ ⟨b0, b1, b2, b3⟩
        = [] := by
      rw [show poolFuel = 4294967295 + 1 from rfl]
      exact gen32_empty _ _ ⟨h0, h1, h2, h3⟩
    simp only [NewIPPool, hmask, hgen]
    rfl
  · obtain ⟨e, hedef⟩ : ∃ e, b3 &&& 254 = e := ⟨_, rfl⟩
    have hefacts : e < 256 ∧ e % 2 = 0 := by
      have := land254_pack b3 h3
      rw [hedef] at this
      omega
    have hm : maskOfOnes 31 = ⟨255, 255, 255, 254⟩ := by decide
    have hmask : maskIP ⟨b0, b1, b2, b3⟩ (maskOfOnes 31)
        = ⟨b0, b1, b2, e⟩ := by
      rw [hm, maskIP_mk, land255 b0 h0, land255 b1 h1, land255 b2 h2, hedef]
    have hmaske : e &&& 254 = e := by
      rw [land254_pack e hefacts.1]
      omega
    have hmask2 : maskIP ⟨b0, b1, b2, e⟩ (maskOfOnes 31)
        = ⟨b0, b1, b2, e⟩ := by
      rw [hm, maskIP_mk, land255 b0 h0, land255 b1 h1, land255 b2 h2, hmaske]
    have hgen : genAvail poolFuel ⟨⟨b0, b1, b2, e⟩, 31⟩ ⟨b0, b1, b2, e⟩
        = [] := by
      rw [show poolFuel = 4294967294 + 2 from rfl]
      exact gen31_empty _ b0 b1 b2 e h0 h1 h2 hefacts.1 hefacts.2
    simp only [NewIPPool, hmask, hmask2, hgen]
    rfl

/-- Witness for C7: construction on `10.0.0.0/32` and `10.0.0.0/31` fails. -/
theorem NewIPPool_fails_slash31_slash32_witness :
    NewIPPool ⟨10, 0, 0, 0⟩ 32 = .error "no available IPs in CIDR range" ∧
    NewIPPool ⟨10, 0, 0, 0⟩ 31 = .error "no available IPs in CIDR range" :=
  NewIPPool_fails_slash31_slash32 ⟨10, 0, 0, 0⟩ (by decide)

/-! ## The `/16` enumeration (claim C1) -/

/-- The k-th address of the `10.200.0.0/16` block, `0 ≤ k ≤ 65535`. -/
def ipOf (k : Nat) : IPv4 := ⟨10, 200, k / 256, k % 256⟩

/-- Stepping from the k-th address of the block yields the (k+1)-th. -/
theorem nextIP_ipOf (n : Nat) (h : n < 65535) :
    nextIP (ipOf n) = ipOf (n + 1) := by
  unfold ipOf
  rw [nextIP_mk]
  by_cases hm : n % 256 = 255
  · rw [hm]
    rw [show ((255 : Nat) + 1) % 256 = 0 from rfl]
    rw [if_neg (by omega)]
    have hq : n / 256 < 255 := by omega
    rw [Nat.mod_eq_of_lt (by omega : n / 256 + 1 < 256)]
    rw [if_pos (by omega)]
    simp only [IPv4.mk.injEq]
    refine ⟨trivial, trivial, by omega, by omega⟩
  · rw [Nat.mod_eq_of_lt (by omega : n % 256 + 1 < 256)]
    rw [if_pos (by omega)]
    simp only [IPv4.mk.injEq]
    refine ⟨trivial, trivial, by omega, by omega⟩

/-- Every address of the block is inside the `/16` (the last two mask bytes
are zero, so the low 16 bits are discarded whatever `k` is; the hypothesis
keeps the statement on the block itself). -/
theorem contains16 (k : Nat) (_h : k < 65536) : containsIP net16 (ipOf k) := by
  show maskIP (ipOf k) (maskOfOnes net16.ones) = net16.ip
  unfold ipOf
  rw [show maskOfOnes net16.ones = ⟨255, 255, 0, 0⟩ from by decide, maskIP_mk,
    land255 10 (by omega), land255 200 (by omega), Nat.and_zero, Nat.and_zero]
  rfl

/-- From the second host onwards no address of the block is reserved: the
network and gateway have indices 0 and 1, and the broadcast computed by
`broadcastCalc` collapses to the network address on a `/16`. -/
theorem not_reserved16 (k : Nat) (hk2 : 2 ≤ k) (hk : k ≤ 65535) :
    isReserved (ipOf k) net16 = false := by
  have hne0 : ipOf k ≠ ⟨10, 200, 0, 0⟩ := by
    intro heq
    simp only [ipOf, IPv4.mk.injEq] at heq
    omega
  have hne1 : ipOf k ≠ ⟨10, 200, 0, 1⟩ := by
    intro heq
    simp only [ipOf, IPv4.mk.injEq] at heq
    omega
  show (if ipOf k = maskIP net16.ip (maskOfOnes net16.ones) then true
    else if ipOf k = nextIP (maskIP net16.ip (maskOfOnes net16.ones)) then true
    else if net16.ones = 0 then false
    else decide (ipOf k = broadcastCalc net16)) = false
  rw [show maskIP net16.ip (maskOfOnes net16.ones) = ⟨10, 200, 0, 0⟩ from
    by decide]
  rw [if_neg hne0]
  rw [show nextIP ⟨10, 200, 0, 0⟩ = (⟨10, 200, 0, 1⟩ : IPv4) from by decide]
  rw [if_neg hne1]
  rw [if_neg (by decide : ¬ net16.ones = 0)]
  rw [show broadcastCalc net16 = ⟨10, 200, 0, 0⟩ from by decide]
  exact decide_eq_false hne0

/-- Running the enumeration loop from the n-th address (`n ≥ 1`, past the
gateway) yields every later address of the block, none skipped — the
broadcast included. -/
theorem genTail16 : ∀ m f n, n + m = 65535 → 1 ≤ n → m ≤ f →
    genAvail f net16 (ipOf n) =
      (List.range m).map (fun j => ipOf (n + 1 + j)) := by
  intro m
  induction m with
  | zero =>
    intro f n hnm _ _
    have hn : n = 65535 := by omega
    subst hn
    cases f with
    | zero => simp [genAvail]
    | succ f1 =>
      rw [genAvail_succ]
      rw [show nextIP (ipOf 65535) = ⟨10, 201, 0, 0⟩ from by decide]
      rw [if_neg (by decide : ¬ containsIP net16 ⟨10, 201, 0, 0⟩)]
      simp
  | succ m ih =>
    intro f n hnm hn1 hmf
    obtain ⟨f1, rfl⟩ : ∃ f1, f = f1 + 1 := ⟨f - 1, by omega⟩
    rw [genAvail_succ]
    rw [nextIP_ipOf n (by omega)]
    rw [if_pos (contains16 (n + 1) (by omega))]
    rw [not_reserved16 (n + 1) (by omega) (by omega)]
    rw [if_neg (by simp)]
    rw [ih f1 (n + 1) (by omega) (by omega) (by omega)]
    rw [List.range_succ_eq_map, List.map_cons, List.map_map]
    congr 1
    refine List.map_congr_left ?_
    intro j _
    simp only [Function.comp]
    congr 1
    omega

/-- The free list `NewIPPool` builds for `10.200.0.0/16`: all block addresses
from index 2 (after network and gateway) through 65535 — the broadcast
included. -/
def avail16 : List IPv4 := (List.range 65534).map (fun j => ipOf (2 + j))

/-- The full enumeration for `10.200.0.0/16`: the loop skips only the
gateway, so all 65534 remaining addresses of `avail16` are collected. -/
theorem gen16_full (f : Nat) (hf : 65535 ≤ f) :
    genAvail f net16 (ipOf 0) = avail16 := by
  obtain ⟨f1, rfl⟩ : ∃ f1, f = f1 + 1 := ⟨f - 1, by omega⟩
  rw [genAvail_succ]
  rw [show nextIP (ipOf 0) = ipOf 1 from by decide]
  rw [if_pos (contains16 1 (by omega))]
  rw [show isReserved (ipOf 1) net16 = true from by decide]
  rw [if_pos rfl]
  rw [genTail16 65534 f1 1 (by omega) (by omega) (by omega)]
  unfold avail16
  refine List.map_congr_left ?_
  intro j _
  norm_num

/-- The `/16` free list is non-empty. -/
theorem avail16_ne_nil : avail16 ≠ [] := by
  unfold avail16
  simp

/-- The `/16` free list holds `2^16 - 2` addresses. -/
theorem avail16_length : avail16.length = 2 ^ 16 - 2 := by
  unfold avail16
  rw [List.length_map, List.length_range]
  norm_num

/-- The broadcast `10.200.255.255` sits in the `/16` free list. -/
theorem bcast16_mem_avail16 : bcast16 ∈ avail16 := by
  unfold avail16
  rw [show bcast16 = ipOf (2 + 65533) from by decide]
  exact List.mem_map.mpr ⟨65533, List.mem_range.mpr (by omega), rfl⟩

/-- Claim C1 (code bug): on `10.200.0.0/16` the constructed free list has
`2^16 - 2` entries, not `2^16 - 3`, and it contains the broadcast address
`10.200.255.255` — `isReserved`'s broadcast computation never fires for a
`/16`, so only the network address and the gateway are withheld. -/
theorem NewIPPool_slash16_broadcast_in_free_list :
    (∃ p, NewIPPool ⟨10, 200, 0, 0⟩ 16 = .ok p ∧
      p.AvailableCount = 2 ^ 16 - 2 ∧ bcast16 ∈ p.available) ∧
    (2 : Nat) ^ 16 - 2 ≠ 2 ^ 16 - 3 := by
  constructor
  · have hmask : maskIP ⟨10, 200, 0, 0⟩ (maskOfOnes 16) = ⟨10, 200, 0, 0⟩ :=
      by decide
    have hpool : NewIPPool ⟨10, 200, 0, 0⟩ 16 = .ok ⟨net16, [], avail16⟩ := by
      simp only [NewIPPool, hmask]
      rw [show (⟨⟨10, 200, 0, 0⟩, 16⟩ : IPNet) = net16 from rfl]
      rw [show (⟨10, 200, 0, 0⟩ : IPv4) = ipOf 0 from by decide]
      rw [gen16_full poolFuel (by norm_num [poolFuel])]
      rw [if_neg avail16_ne_nil]
    refine ⟨⟨net16, [], avail16⟩, hpool, ?_, ?_⟩
    · unfold IPPool.AvailableCount
      dsimp only
      exact avail16_length
    · dsimp only
      exact bcast16_mem_avail16
  · norm_num

/-! ## The pool invariant (claim C4) -/

/-- A successful map lookup exhibits a list entry. -/
theorem lookupA_some_mem : ∀ (l : List (String × IPv4)) (k : String)
    (ip : IPv4), lookupA k l = some ip → (k, ip) ∈ l := by
  intro l
  induction l with
  | nil =>
    intro k ip h
    simp [lookupA] at h
  | cons q t ih =>
    intro k ip h
    obtain ⟨a, v⟩ := q
    rw [lookupA] at h
    split_ifs at h with hak
    · cases h
      subst hak
      exact List.mem_cons_self _ _
    · exact List.mem_cons_of_mem _ (ih k ip h)

/-- The splice-out loop only drops elements. -/
theorem removeFirst_sublist : ∀ (l : List IPv4) (ip : IPv4),
    List.Sublist (removeFirst ip l) l := by
  intro l
  induction l with
  | nil => intro ip; simp [removeFirst]
  | cons x t ih =>
    intro ip
    rw [removeFirst]
    split_ifs with hx
    · exact List.sublist_cons_self x t
    · exact (ih ip).cons₂ x

/-- After splicing out `ip` from a duplicate-free list, `ip` is gone. -/
theorem not_mem_removeFirst : ∀ (l : List IPv4) (ip : IPv4), l.Nodup →
    ip ∉ removeFirst ip l := by
  intro l
  induction l with
  | nil => intro ip _; simp [removeFirst]
  | cons x t ih =>
    intro ip hnd
    have hc := List.nodup_cons.mp hnd
    rw [removeFirst]
    split_ifs with hx
    · rw [← hx]
      exact hc.1
    · intro hmem
      rcases List.mem_cons.mp hmem with he | hm
      · exact hx he.symm
      · exact ih ip hc.2 hm

/-- In a map whose values are duplicate-free, distinct entries never share a
value. -/
theorem vals_nodup_unique (l : List (String × IPv4))
    (h : (l.map Prod.snd).Nodup) (q1 q2 : String × IPv4)
    (h1 : q1 ∈ l) (h2 : q2 ∈ l) (hne : q1 ≠ q2) : q1.2 ≠ q2.2 := by
  have hp : l.Pairwise (fun a b => a.2 ≠ b.2) := List.pairwise_map.mp h
  exact hp.forall (fun a b hab => hab.symm) h1 h2 hne

/-- The value sequence visited by iterating `nextIP`. -/
def chainList : Nat → IPv4 → List IPv4
  | 0, _ => []
  | f + 1, ip => nextIP ip :: chainList f (nextIP ip)

/-- `IPv4.val` on an explicit byte vector. -/
theorem val_mk (a0 a1 a2 a3 : Nat) :
    (⟨a0, a1, a2, a3⟩ : IPv4).val
      = a0 * 16777216 + a1 * 65536 + a2 * 256 + a3 := rfl

/-- Stepping `nextIP` increments the 32-bit value modulo `2^32`. -/
theorem val_nextIP (ip : IPv4) (h : ip.bytesLT) :
    (nextIP ip).val = (ip.val + 1) % 4294967296 := by
  obtain ⟨b0, b1, b2, b3⟩ := ip
  rw [bytesLT_mk] at h
  obtain ⟨h0, h1, h2, h3⟩ := h
  rw [nextIP_mk]
  split_ifs with hc3 hc2 hc1 <;> simp only [val_mk] <;> omega


/-- `mapInsert` unfolded. -/
theorem mapInsert_eq (k : String) (ip : IPv4) (l : List (String × IPv4)) :
    mapInsert k ip l = (k, ip) :: l.filter (fun q => ¬ q.1 = k) := rfl

/-- Inserting a key keeps the key list duplicate-free: the filter first
removes any old entry for that key. -/
theorem keys_mapInsert_nodup (l : List (String × IPv4)) (k : String)
    (ip : IPv4) (h : (l.map Prod.fst).Nodup) :
    ((mapInsert k ip l).map Prod.fst).Nodup := by
  rw [mapInsert_eq, List.map_cons]
  refine List.nodup_cons.mpr ⟨?_, h.sublist ((List.filter_sublist _).map _)⟩
  intro hmem
  obtain ⟨q, hqf, hq1⟩ := List.mem_map.mp hmem
  have hf := List.of_mem_filter hqf
  simp only [decide_eq_true_eq] at hf
  exact hf hq1

/-- Inserting a value held by no other entry keeps the value list
duplicate-free. -/
theorem vals_mapInsert_nodup (l : List (String × IPv4)) (k : String)
    (ip : IPv4) (h : (l.map Prod.snd).Nodup) (hnot : ∀ q ∈ l, q.2 ≠ ip) :
    ((mapInsert k ip l).map Prod.snd).Nodup := by
  rw [mapInsert_eq, List.map_cons]
  refine List.nodup_cons.mpr ⟨?_, h.sublist ((List.filter_sublist _).map _)⟩
  intro hmem
  obtain ⟨q, hqf, hq2⟩ := List.mem_map.mp hmem
  exact hnot q (List.mem_of_mem_filter hqf) hq2

/-- The values along the chain are the consecutive residues. -/
theorem chainList_map_val : ∀ (f : Nat) (ip : IPv4), ip.bytesLT →
    (chainList f ip).map IPv4.val
      = (List.range f).map (fun i => (ip.val + 1 + i) % 4294967296) := by
  intro f
  induction f with
  | zero => intro ip _; rfl
  | succ f ih =>
    intro ip h
    rw [show chainList (f + 1) ip = nextIP ip :: chainList f (nextIP ip)
      from rfl]
    rw [List.map_cons, ih (nextIP ip) (nextIP_bytesLT ip h)]
    rw [List.range_succ_eq_map, List.map_cons, List.map_map]
    refine List.cons_eq_cons.mpr ⟨?_, ?_⟩
    · show (nextIP ip).val = (ip.val + 1 + 0) % 4294967296
      rw [val_nextIP ip h]
    · refine List.map_congr_left ?_
      intro i _
      simp only [Function.comp]
      rw [val_nextIP ip h]
      omega

/-- Consecutive residues modulo `2^32` are distinct while fewer than `2^32`
of them are taken. -/
theorem range_mod_nodup (f v : Nat) (hf : f ≤ 4294967296) :
    ((List.range f).map (fun i => (v + 1 + i) % 4294967296)).Nodup := by
  refine (List.nodup_range f).map_on ?_
  intro i hi j hj hij
  rw [List.mem_range] at hi hj
  omega

/-- The chain never revisits an address within `2^32` steps. -/
theorem chainList_nodup (f : Nat) (ip : IPv4) (h : ip.bytesLT)
    (hf : f ≤ 4294967296) : (chainList f ip).Nodup := by
  refine List.Nodup.of_map IPv4.val ?_
  rw [chainList_map_val f ip h]
  exact range_mod_nodup f ip.val hf

/-- The enumeration loop only ever appends addresses from the chain, in
order. -/
theorem genAvail_sublist_chain : ∀ (f : Nat) (n : IPNet) (ip : IPv4),
    List.Sublist (genAvail f n ip) (chainList f ip) := by
  intro f
  induction f with
  | zero => intro n ip; simp [genAvail, chainList]
  | succ f ih =>
    intro n ip
    rw [genAvail_succ]
    rw [show chainList (f + 1) ip = nextIP ip :: chainList f (nextIP ip)
      from rfl]
    split_ifs with hc hr
    · exact (ih n (nextIP ip)).cons _
    · rw [show copyIP (nextIP ip) = nextIP ip from rfl]
      exact (ih n (nextIP ip)).cons₂ _
    · exact List.nil_sublist _

/-- The free list built by the enumeration loop has no duplicates. -/
theorem genAvail_nodup (f : Nat) (n : IPNet) (ip : IPv4) (h : ip.bytesLT)
    (hf : f ≤ 4294967296) : (genAvail f n ip).Nodup :=
  (chainList_nodup f ip h hf).sublist (genAvail_sublist_chain f n ip)

/-- Masking keeps bytes in range. -/
theorem maskIP_bytesLT (x m : IPv4) (h : x.bytesLT) : (maskIP x m).bytesLT := by
  obtain ⟨a0, a1, a2, a3⟩ := x
  obtain ⟨m0, m1, m2, m3⟩ := m
  rw [bytesLT_mk] at h
  obtain ⟨h0, h1, h2, h3⟩ := h
  rw [maskIP_mk, bytesLT_mk]
  exact ⟨lt_of_le_of_lt Nat.and_le_left h0, lt_of_le_of_lt Nat.and_le_left h1,
    lt_of_le_of_lt Nat.and_le_left h2, lt_of_le_of_lt Nat.and_le_left h3⟩

/-- A freshly constructed pool satisfies the invariant. -/
theorem NewIPPool_Inv (b : IPv4) (ones : Nat) (p : IPPool)
    (hb : b.bytesLT) (hp : NewIPPool b ones = .ok p) : p.Inv := by
  simp only [NewIPPool] at hp
  split at hp
  · cases hp
  · cases hp
    refine ⟨?_, ?_, ?_, ?_⟩
    · exact genAvail_nodup _ _ _
        (maskIP_bytesLT _ _ (maskIP_bytesLT _ _ hb)) (by norm_num [poolFuel])
    · intro ip _ q hq
      simp at hq
    · simp
    · simp

/-- `Allocate` preserves the invariant. -/
theorem Inv_Allocate (p : IPPool) (A : String) (h : p.Inv) :
    (IPPool.Allocate p A).2.Inv := by
  obtain ⟨hnd, hdisj, hkeys, hvals⟩ := h
  unfold IPPool.Allocate
  cases hl : lookupA A p.allocated with
  | some ip => exact ⟨hnd, hdisj, hkeys, hvals⟩
  | none =>
    cases hav : p.available with
    | nil => exact ⟨hnd, hdisj, hkeys, hvals⟩
    | cons ip rest =>
      rw [hav] at hnd hdisj
      have hnc := List.nodup_cons.mp hnd
      refine ⟨hnc.2, ?_, ?_, ?_⟩
      · intro x hx q hq
        rcases List.mem_cons.mp hq with he | hq2
        · rw [he]
          intro hip
          have hip2 : ip = x := hip
          exact hnc.1 (hip2 ▸ hx)
        · exact hdisj x (List.mem_cons_of_mem _ hx) q
            (List.mem_of_mem_filter hq2)
      · exact keys_mapInsert_nodup p.allocated A ip hkeys
      · exact vals_mapInsert_nodup p.allocated A ip hvals
          (fun q hq => hdisj ip (List.mem_cons_self _ _) q hq)

/-- `AllocateSpecific` preserves the invariant. -/
theorem Inv_AllocateSpecific (p : IPPool) (A : String) (ip : IPv4)
    (h : p.Inv) : (IPPool.AllocateSpecific p A ip).2.Inv := by
  obtain ⟨hnd, hdisj, hkeys, hvals⟩ := h
  unfold IPPool.AllocateSpecific
  by_cases hc : containsIP p.cidr ip
  · rw [if_neg (fun hnc => hnc hc)]
    by_cases hr : isReserved ip p.cidr = true
    · rw [if_pos hr]
      exact ⟨hnd, hdisj, hkeys, hvals⟩
    · rw [if_neg hr]
      by_cases hal : p.allocated.any (fun q => q.2 = ip) = true
      · rw [if_pos hal]
        exact ⟨hnd, hdisj, hkeys, hvals⟩
      · rw [if_neg hal]
        have hnotal : ∀ q ∈ p.allocated, q.2 ≠ ip := by
          intro q hq he
          refine hal ?_
          rw [List.any_eq_true]
          exact ⟨q, hq, by simp [he]⟩
        refine ⟨?_, ?_, ?_, ?_⟩
        · exact hnd.sublist (removeFirst_sublist p.available ip)
        · intro x hx q hq
          have hx1 : x ∈ removeFirst ip p.available := hx
          have hxav : x ∈ p.available :=
            (removeFirst_sublist p.available ip).mem hx1
          have hq1 : q ∈ mapInsert A ip p.allocated := hq
          rw [mapInsert_eq] at hq1
          rcases List.mem_cons.mp hq1 with he | hq2
          · rw [he]
            intro hipx
            have hipx2 : ip = x := hipx
            exact not_mem_removeFirst p.available ip hnd (hipx2 ▸ hx1)
          · exact hdisj x hxav q (List.mem_of_mem_filter hq2)
        · exact keys_mapInsert_nodup p.allocated A ip hkeys
        · exact vals_mapInsert_nodup p.allocated A ip hvals hnotal
  · rw [if_pos hc]
    exact ⟨hnd, hdisj, hkeys, hvals⟩

/-- `Release` preserves the invariant. -/
theorem Inv_Release (p : IPPool) (A : String) (h : p.Inv) :
    (IPPool.Release p A).2.Inv := by
  obtain ⟨hnd, hdisj, hkeys, hvals⟩ := h
  unfold IPPool.Release
  cases hl : lookupA A p.allocated with
  | none => exact ⟨hnd, hdisj, hkeys, hvals⟩
  | some ip =>
    have hmem : (A, ip) ∈ p.allocated := lookupA_some_mem _ A ip hl
    refine ⟨?_, ?_, ?_, ?_⟩
    · refine hnd.append (List.nodup_singleton ip) ?_
      intro a ha hb
      rw [List.mem_singleton] at hb
      exact hdisj a ha (A, ip) hmem hb.symm
    · intro x hx q hq
      have hx0 : x ∈ p.available ++ [ip] := hx
      have hq0 : q ∈ mapErase A p.allocated := hq
      have hql : q ∈ p.allocated := List.mem_of_mem_filter hq0
      rcases List.mem_append.mp hx0 with hx1 | hx2
      · exact hdisj x hx1 q hql
      · rw [List.mem_singleton] at hx2
        rw [hx2]
        have hqA := List.of_mem_filter hq0
        simp only [decide_eq_true_eq] at hqA
        refine vals_nodup_unique p.allocated hvals q (A, ip) hql hmem ?_
        intro he
        rw [he] at hqA
        exact hqA rfl
    · exact hkeys.sublist ((List.filter_sublist _).map _)
    · exact hvals.sublist ((List.filter_sublist _).map _)

/-- Claim C4: the no-shared-IP property is part of an invariant that holds
for every freshly constructed pool and is preserved by `Allocate`,
`AllocateSpecific` and `Release`; in every invariant state, live allocations
of distinct agents never share an IP. -/
theorem pool_no_shared_ip_invariant :
    (∀ b ones p, IPv4.bytesLT b → NewIPPool b ones = .ok p → p.Inv) ∧
    (∀ p A, IPPool.Inv p → (IPPool.Allocate p A).2.Inv) ∧
    (∀ p A ip, IPPool.Inv p → (IPPool.AllocateSpecific p A ip).2.Inv) ∧
    (∀ p A, IPPool.Inv p → (IPPool.Release p A).2.Inv) ∧
    (∀ p, IPPool.Inv p → ∀ q1 ∈ p.allocated, ∀ q2 ∈ p.allocated,
      q1.1 ≠ q2.1 → q1.2 ≠ q2.2) := by
  refine ⟨fun b ones p hb hp => NewIPPool_Inv b ones p hb hp,
    fun p A h => Inv_Allocate p A h,
    fun p A ip h => Inv_AllocateSpecific p A ip h,
    fun p A h => Inv_Release p A h,
    ?_⟩
  intro p h q1 h1 q2 h2 hne
  refine vals_nodup_unique p.allocated h.2.2.2 q1 q2 h1 h2 ?_
  intro he
  rw [he] at hne
  exact hne rfl

/-- The pool `NewIPPool` builds for `10.0.0.0/30`. -/
def p30 : IPPool :=
  ⟨⟨⟨10, 0, 0, 0⟩, 30⟩, [], [⟨10, 0, 0, 2⟩, ⟨10, 0, 0, 3⟩]⟩

/-- Witness for C4: the invariant holds for the freshly constructed
`10.0.0.0/30` pool and survives a concrete `Allocate`, `AllocateSpecific`
and `Release`, and no two allocations of that pool share an IP. -/
theorem pool_no_shared_ip_invariant_witness :
    p30.Inv ∧ (IPPool.Allocate p30 "agent-a").2.Inv ∧
    (IPPool.AllocateSpecific p30 "agent-b" ⟨10, 0, 0, 3⟩).2.Inv ∧
    (IPPool.Release p30 "agent-a").2.Inv ∧
    (∀ q1 ∈ p30.allocated, ∀ q2 ∈ p30.allocated,
      q1.1 ≠ q2.1 → q1.2 ≠ q2.2) := by
  have h := pool_no_shared_ip_invariant
  have h30 : NewIPPool ⟨10, 0, 0, 0⟩ 30 = .ok p30 := by rfl
  have hInv : p30.Inv := h.1 ⟨10, 0, 0, 0⟩ 30 p30 (by decide) h30
  exact ⟨hInv, h.2.1 p30 "agent-a" hInv,
    h.2.2.1 p30 "agent-b" ⟨10, 0, 0, 3⟩ hInv,
    h.2.2.2.1 p30 "agent-a" hInv, h.2.2.2.2 p30 hInv⟩
